import Mathlib

/-!
Verification of the heap storage engine (`heap_storage.cpp` / `heap_storage.h`
/ `storage_engine.h`): a shallow embedding of the slotted page, the heap file
and the heap table, with theorems about the spec's claims.

Modelling conventions:
* a block's memory is a total function `Nat → Nat` from byte offset to byte
  value; every write stores values `< 256` (`% 256` of the stored 16-bit
  halves), mirroring 8-bit memory cells;
* C++ `u_int16_t` values live in `Nat` with an explicit `% 65536` at every
  point where the source truncates (u16 member assignment, u16 function
  parameter, u16 local variable); intermediate C arithmetic is promoted to
  `int` in the source and therefore exact;
* `memcpy`/`memmove` become pointwise function updates over the copied range;
  a read past the end of a source buffer (undefined in C++) is modelled as 0;
* a C++ method that mutates `this` and may throw becomes a function returning
  the new state paired with an `Except`; when the source throws before any
  mutation the original state is returned unchanged.
-/

set_option linter.all false

/-- `DbBlock::BLOCK_SZ` from `storage_engine.h`. -/
def BLOCK_SZ : Nat := 4096

/-- Single byte store: `memory[o] = v`. -/
def upd (f : Nat → Nat) (o v : Nat) : Nat → Nat :=
  fun i => if i = o then v else f i

/-- `SlottedPage::put_n`: store a 2-byte little-endian integer at offset `o`
(the offset is a `u16` parameter in the source; callers below pass the already
truncated value). -/
def writeN (f : Nat → Nat) (o n : Nat) : Nat → Nat :=
  upd (upd f o (n % 256)) (o + 1) (n / 256 % 256)

/-- `SlottedPage::get_n`: read a 2-byte little-endian integer at offset `o`. -/
def rawGetN (f : Nat → Nat) (o : Nat) : Nat :=
  f o % 256 + 256 * (f (o + 1) % 256)

/-- `memcpy(address(loc), src, len)` where `src` holds the bytes of `d`;
bytes read past the end of `d` (undefined behavior in the source) are 0. -/
def writeBytes (f : Nat → Nat) (loc : Nat) (d : List Nat) : Nat → Nat :=
  fun i => if loc ≤ i ∧ i < loc + d.length then d.getD (i - loc) 0 else f i

/-- `memmove(address(nl), address(ol), len)`: overlap-safe copy, so every
target byte reads from the pre-move memory. -/
def moveBytes (f : Nat → Nat) (nl ol len : Nat) : Nat → Nat :=
  fun i => if nl ≤ i ∧ i < nl + len then f (ol + (i - nl)) else f i

/-- Read `len` consecutive bytes starting at `loc` (used by `Dbt` results). -/
def readBytes (f : Nat → Nat) (loc len : Nat) : List Nat :=
  (List.range len).map fun k => f (loc + k)

/-- In-memory state of `SlottedPage`: the block bytes plus the `num_records`
and `end_free` member fields (which the source keeps in sync with the block
header via `put_header`), and the block id from `DbBlock`. -/
structure SlottedPage where
  block : Nat → Nat
  num_records : Nat
  end_free : Nat
  block_id : Nat

/-- `SlottedPage::put_n` on a page (the `u16 offset` parameter truncates). -/
def SlottedPage.put_n (p : SlottedPage) (o n : Nat) : SlottedPage :=
  { p with block := writeN p.block (o % 65536) n }

/-- `SlottedPage::get_n` on a page (the `u16 offset` parameter truncates). -/
def SlottedPage.get_n (p : SlottedPage) (o : Nat) : Nat :=
  rawGetN p.block (o % 65536)

/-- `SlottedPage::get_header`: `(size, loc)` of record `id`
(id 0 is the block header). -/
def SlottedPage.get_header (p : SlottedPage) (id : Nat) : Nat × Nat :=
  (p.get_n (4 * id), p.get_n (4 * id + 2))

/-- `SlottedPage::put_header`: for `id = 0` store the block header from the
member fields, else store the record's `(size, loc)` slot header. -/
def SlottedPage.put_header (p : SlottedPage) (id size loc : Nat) : SlottedPage :=
  let size := if id = 0 then p.num_records else size
  let loc := if id = 0 then p.end_free else loc
  (p.put_n (4 * id) size).put_n (4 * id + 2) loc

/-- `SlottedPage::has_room`: `u16 available = end_free - (num_records+1)*4`
(the subtraction happens in `int` and the assignment truncates to `u16`),
then `size + 4 <= available` compared in `int`. -/
def SlottedPage.has_room (p : SlottedPage) (size : Nat) : Bool :=
  let available : Int := ((p.end_free : Int) - (p.num_records + 1) * 4) % 65536
  decide ((size : Int) + 4 ≤ available)

/-- `SlottedPage::add`: throws `DbBlockNoRoomError` when `has_room` is false
(before any mutation), else assigns id `++num_records`, moves `end_free` down
by the data's size, writes both headers and copies the bytes to
`loc = end_free + 1`.  `data->get_size()` is a `u32` passed into the `u16`
parameter of `has_room` and the `u16` local `size`, hence `% 65536`. -/
def SlottedPage.add (p : SlottedPage) (d : List Nat) :
    SlottedPage × Except String Nat :=
  if !p.has_room (d.length % 65536) then
    (p, .error "not enough room for new record")
  else
    let id := (p.num_records + 1) % 65536
    let size := d.length % 65536
    let ef := (p.end_free + 65536 - size) % 65536
    let loc := (ef + 1) % 65536
    let p1 : SlottedPage := { p with num_records := id, end_free := ef }
    let p2 := (p1.put_header 0 0 0).put_header id size loc
    ({ p2 with block := writeBytes p2.block loc (d.take size) }, .ok id)

/-- `SlottedPage::get`: a zero `loc` is a tombstone and yields `nullptr`
(`none`); otherwise the record's bytes `[loc, loc + size)`. -/
def SlottedPage.get (p : SlottedPage) (record_id : Nat) : Option (List Nat) :=
  let size := p.get_n (4 * record_id)
  let loc := p.get_n (4 * record_id + 2)
  if loc = 0 then none
  else some (readBytes p.block loc size)

/-- `SlottedPage::ids`: record ids `1..num_records` whose slot header has a
nonzero `loc`. -/
def SlottedPage.ids (p : SlottedPage) : List Nat :=
  (List.range' 1 p.num_records).filter fun rid =>
    decide (p.get_n (4 * rid + 2) ≠ 0)

/-- `SlottedPage::slide`: `u16 shift = end - start` (wrapping); move the
span of allocated bytes `[end_free+1, start)` by `shift`, fix up every live
record header whose `loc <= start`, adjust `end_free`, rewrite the block
header.  All `u16` locals wrap at 65536; `address` takes a `u16` offset. -/
def SlottedPage.slide (p : SlottedPage) (start0 stop0 : Nat) : SlottedPage :=
  let start := start0 % 65536
  let stop := stop0 % 65536
  let shift := (stop + 65536 - start) % 65536
  if shift = 0 then p
  else
    let old_loc := (p.end_free + 1) % 65536
    let new_loc := (p.end_free + shift + 1) % 65536
    let bytes := (start + 65536 - old_loc) % 65536
    let p1 : SlottedPage := { p with block := moveBytes p.block new_loc old_loc bytes }
    let p2 := p1.ids.foldl (fun q rid =>
      let sz := q.get_n (4 * rid)
      let lc := q.get_n (4 * rid + 2)
      if lc ≤ start then q.put_header rid sz ((lc + shift) % 65536) else q) p1
    let p3 : SlottedPage := { p2 with end_free := (p2.end_free + shift) % 65536 }
    p3.put_header 0 0 0

/-- `SlottedPage::del`: read the record's header, zero it (tombstone), then
slide `[loc, loc+size)` away to reclaim the space. -/
def SlottedPage.del (p : SlottedPage) (record_id : Nat) : SlottedPage :=
  let size := p.get_n (4 * record_id)
  let loc := p.get_n (4 * record_id + 2)
  (p.put_header record_id 0 0).slide loc (loc + size)

/-- `sizeof(Dbt)` on LP64 Linux: the BerkeleyDB `DBT` struct
`{void*, u32, u32, u32, u32, void*, u32}` padded to 40 bytes.  The source's
`SlottedPage::put` computes `u16 new_size = sizeof(data)` where `data` is a
`const Dbt&`, so this constant — not the data's length — is used. -/
def SIZEOF_DBT : Nat := 40

/-- Bytes actually copied by `memcpy(dst, src, n)` when `src` holds `d`:
exactly `n` bytes, with reads past `d` (undefined in C++) modelled as 0. -/
def padTo (d : List Nat) (n : Nat) : List Nat :=
  (List.range n).map fun i => d.getD i 0

/-- `SlottedPage::put`: replace record `record_id`'s bytes.  Faithful to the
source, including `u16 new_size = sizeof(data)` (the `Dbt` descriptor size,
`SIZEOF_DBT`, not the data length).  The grow branch throws before mutating
when `has_room(extra)` fails; otherwise it slides, copies `new_size` bytes at
`loc - extra` (a `u16` address computation), re-reads the possibly shifted
location and rewrites the slot header. -/
def SlottedPage.put (p : SlottedPage) (record_id : Nat) (d : List Nat) :
    SlottedPage × Except String Unit :=
  let size := p.get_n (4 * record_id)
  let loc := p.get_n (4 * record_id + 2)
  let new_size := SIZEOF_DBT
  if size < new_size then
    let extra := new_size - size
    if !p.has_room (extra % 65536) then
      (p, .error "not enough room in block")
    else
      let p1 := p.slide (loc + new_size) (loc + size)
      let p2 : SlottedPage :=
        { p1 with block := writeBytes p1.block ((loc + 65536 - extra) % 65536) (padTo d new_size) }
      let loc2 := p2.get_n (4 * record_id + 2)
      (p2.put_header record_id new_size loc2, .ok ())
  else
    let p1 : SlottedPage := { p with block := writeBytes p.block loc (padTo d new_size) }
    let p2 := p1.slide (loc + new_size) (loc + size)
    let loc2 := p2.get_n (4 * record_id + 2)
    (p2.put_header record_id new_size loc2, .ok ())

/-- The `SlottedPage` constructor with `is_new = true` on a zero-filled
`BLOCK_SZ` buffer (as produced by `HeapFile::get_new`): zero `num_records`,
`end_free = BLOCK_SZ - 1`, write the block header. -/
def SlottedPage.new (bid : Nat) : SlottedPage :=
  SlottedPage.put_header
    { block := fun _ => 0, num_records := 0, end_free := BLOCK_SZ - 1, block_id := bid } 0 0 0

/-- A freshly formatted page (block id 1, as written by `HeapFile::create`). -/
def freshPage : SlottedPage := SlottedPage.new 1

-- Field projections of the page operations (the source methods only touch
-- the fields shown).

theorem SlottedPage.put_n_num_records (p : SlottedPage) (o n : Nat) :
    (p.put_n o n).num_records = p.num_records := rfl

theorem SlottedPage.put_n_end_free (p : SlottedPage) (o n : Nat) :
    (p.put_n o n).end_free = p.end_free := rfl

theorem SlottedPage.put_header_num_records (p : SlottedPage) (id size loc : Nat) :
    (p.put_header id size loc).num_records = p.num_records := rfl

theorem SlottedPage.put_header_end_free (p : SlottedPage) (id size loc : Nat) :
    (p.put_header id size loc).end_free = p.end_free := rfl

theorem freshPage_num_records : freshPage.num_records = 0 := rfl

theorem freshPage_end_free : freshPage.end_free = 4095 := rfl

-- Pointwise read lemmas for the raw memory operations.

theorem rawGetN_writeN_same (f : Nat → Nat) (o n : Nat) :
    rawGetN (writeN f o n) o = n % 65536 := by
  simp only [rawGetN, writeN, upd]
  simp only [if_true, if_neg (show ¬o = o + 1 by omega)]
  omega

theorem rawGetN_writeN_ne (f : Nat → Nat) (o n o' : Nat)
    (h : o' + 2 ≤ o ∨ o + 2 ≤ o') :
    rawGetN (writeN f o n) o' = rawGetN f o' := by
  simp only [rawGetN, writeN, upd]
  rw [if_neg (by omega), if_neg (by omega), if_neg (by omega), if_neg (by omega)]

theorem rawGetN_writeBytes_ne (f : Nat → Nat) (loc : Nat) (d : List Nat) (o : Nat)
    (h : o + 2 ≤ loc ∨ loc + d.length ≤ o) :
    rawGetN (writeBytes f loc d) o = rawGetN f o := by
  simp only [rawGetN, writeBytes]
  rw [if_neg (by omega), if_neg (by omega)]

theorem rawGetN_moveBytes_ne (f : Nat → Nat) (nl ol len o : Nat)
    (h : o + 2 ≤ nl ∨ nl + len ≤ o) :
    rawGetN (moveBytes f nl ol len) o = rawGetN f o := by
  simp only [rawGetN, moveBytes]
  rw [if_neg (by omega), if_neg (by omega)]

theorem readBytes_len_zero (f : Nat → Nat) (loc : Nat) :
    readBytes f loc 0 = [] := rfl

theorem readBytes_congr (f g : Nat → Nat) (loc len : Nat)
    (h : ∀ i, loc ≤ i → i < loc + len → f i = g i) :
    readBytes f loc len = readBytes g loc len := by
  simp only [readBytes]
  refine List.map_congr_left fun k hk => ?_
  exact h _ (Nat.le_add_right _ _) (by have := List.mem_range.mp hk; omega)

theorem readBytes_writeN_ne (f : Nat → Nat) (o n loc len : Nat)
    (h : o + 2 ≤ loc ∨ loc + len ≤ o) :
    readBytes (writeN f o n) loc len = readBytes f loc len := by
  refine readBytes_congr _ _ _ _ fun i h1 h2 => ?_
  simp only [writeN, upd]
  rw [if_neg (by omega), if_neg (by omega)]

theorem readBytes_writeBytes_same (f : Nat → Nat) (loc : Nat) (d : List Nat) :
    readBytes (writeBytes f loc d) loc d.length = d := by
  refine List.ext_getElem (by simp [readBytes]) fun i h1 h2 => ?_
  simp only [readBytes, writeBytes, List.getElem_map, List.getElem_range]
  have hi : i < d.length := by simpa [readBytes] using h2
  rw [if_pos (by omega)]
  simp [List.getD, List.getElem?_eq_getElem hi]

theorem readBytes_writeBytes_ne (f : Nat → Nat) (loc : Nat) (d : List Nat)
    (loc' len : Nat) (h : loc' + len ≤ loc ∨ loc + d.length ≤ loc') :
    readBytes (writeBytes f loc d) loc' len = readBytes f loc' len := by
  refine readBytes_congr _ _ _ _ fun i h1 h2 => ?_
  simp only [writeBytes]
  rw [if_neg (by omega)]

theorem readBytes_moveBytes_same (f : Nat → Nat) (nl ol len : Nat) :
    readBytes (moveBytes f nl ol len) nl len = readBytes f ol len := by
  refine List.ext_getElem (by simp [readBytes]) fun i h1 h2 => ?_
  have hi : i < len := by simpa [readBytes] using h2
  simp only [readBytes, moveBytes, List.getElem_map, List.getElem_range]
  rw [if_pos (by omega)]
  congr 1
  omega

theorem readBytes_moveBytes_ne (f : Nat → Nat) (nl ol len loc' len' : Nat)
    (h : loc' + len' ≤ nl ∨ nl + len ≤ loc') :
    readBytes (moveBytes f nl ol len) loc' len' = readBytes f loc' len' := by
  refine readBytes_congr _ _ _ _ fun i h1 h2 => ?_
  simp only [moveBytes]
  rw [if_neg (by omega)]

-- `has_room` characterization on well-formed pages (the structural invariant
-- `4*(num_records+1) ≤ end_free < 65536` holds for every page the source can
-- build, since `end_free ≤ BLOCK_SZ - 1` and `add` checks room first).

theorem has_room_iff (p : SlottedPage) (s : Nat)
    (h4 : 4 * (p.num_records + 1) ≤ p.end_free) (hef : p.end_free < 65536) :
    p.has_room s = true ↔ s + 4 ≤ p.end_free - 4 * (p.num_records + 1) := by
  simp only [SlottedPage.has_room, decide_eq_true_eq]
  rw [Int.emod_eq_of_lt (by omega) (by omega)]
  omega

theorem add_ok_has_room (p : SlottedPage) (d : List Nat) (j : Nat)
    (h : (p.add d).2 = .ok j) : p.has_room (d.length % 65536) = true := by
  by_cases hr : p.has_room (d.length % 65536) = true
  · exact hr
  · rw [SlottedPage.add] at h
    rw [Bool.not_eq_true] at hr
    simp [hr] at h

/-- Closed form of a successful `add` on a page satisfying the structural
invariant: the new state after the two header writes and the byte copy. -/
theorem add_eq_of_has_room (p : SlottedPage) (d : List Nat)
    (hr : p.has_room (d.length % 65536) = true)
    (hd : d.length < 65536)
    (hn : 4 * (p.num_records + 1) + 2 < 65536)
    (he : d.length ≤ p.end_free) (hef : p.end_free < 65535) :
    p.add d =
      ({ block :=
           writeBytes
             (writeN
               (writeN
                 (writeN
                   (writeN p.block 0 (p.num_records + 1))
                   2 (p.end_free - d.length))
                 (4 * (p.num_records + 1)) d.length)
               (4 * (p.num_records + 1) + 2) (p.end_free - d.length + 1))
             (p.end_free - d.length + 1) d,
         num_records := p.num_records + 1,
         end_free := p.end_free - d.length,
         block_id := p.block_id }, .ok (p.num_records + 1)) := by
  rw [SlottedPage.add, hr]
  simp only [Bool.not_true, Bool.false_eq_true, if_false]
  have h2 : d.length % 65536 = d.length := Nat.mod_eq_of_lt hd
  simp only [h2]
  have h3 : (p.end_free + 65536 - d.length) % 65536 = p.end_free - d.length := by omega
  simp only [h3]
  have h1 : (p.num_records + 1) % 65536 = p.num_records + 1 :=
    Nat.mod_eq_of_lt (by omega)
  simp only [h1]
  have h4 : (p.end_free - d.length + 1) % 65536 = p.end_free - d.length + 1 :=
    Nat.mod_eq_of_lt (by omega)
  simp only [h4]
  simp only [SlottedPage.put_header, SlottedPage.put_n]
  rw [if_neg (show ¬(p.num_records + 1 = 0) by omega),
    if_neg (show ¬(p.num_records + 1 = 0) by omega)]
  have h5 : (4 * (p.num_records + 1)) % 65536 = 4 * (p.num_records + 1) :=
    Nat.mod_eq_of_lt (by omega)
  have h6 : (4 * (p.num_records + 1) + 2) % 65536 = 4 * (p.num_records + 1) + 2 :=
    Nat.mod_eq_of_lt (by omega)
  have h7 : (2 : Nat) % 65536 = 2 := by norm_num
  simp only [h5, h6, h7, Nat.mul_zero, Nat.zero_mod, Nat.zero_add, List.take_length,
    if_true]

-- Convenient facts about the fresh page.

theorem freshPage_block :
    freshPage.block = writeN (writeN (fun _ => 0) 0 0) 2 4095 := by
  simp only [freshPage, SlottedPage.new, BLOCK_SZ, SlottedPage.put_header,
    SlottedPage.put_n, if_true]

theorem freshPage_has_room_iff (s : Nat) :
    freshPage.has_room s = true ↔ s + 4 ≤ 4091 := by
  rw [has_room_iff freshPage s (by rw [freshPage_num_records, freshPage_end_free]; omega)
    (by rw [freshPage_end_free]; omega)]
  rw [freshPage_num_records, freshPage_end_free]

/-- `SlottedPage::get` with the lets unfolded. -/
theorem get_eq (p : SlottedPage) (rid : Nat) :
    p.get rid =
      if p.get_n (4 * rid + 2) = 0 then none
      else some (readBytes p.block (p.get_n (4 * rid + 2)) (p.get_n (4 * rid))) := rfl

/-- Compute `SlottedPage::get` from the two header reads. -/
theorem get_of (p : SlottedPage) (rid sz lc : Nat) (d : List Nat)
    (hsz : p.get_n (4 * rid) = sz) (hlc : p.get_n (4 * rid + 2) = lc)
    (hlc0 : lc ≠ 0) (hread : readBytes p.block lc sz = d) :
    p.get rid = some d := by
  rw [get_eq, hsz, hlc, if_neg hlc0, hread]

/-- `SlottedPage::get` of a tombstone (zero `loc`) is `nullptr`. -/
theorem get_tombstone (p : SlottedPage) (rid : Nat)
    (hlc : p.get_n (4 * rid + 2) = 0) : p.get rid = none := by
  rw [get_eq, hlc, if_pos rfl]

/-- C3: on a freshly initialized page, for every byte string `data` that fits,
`add(data)` returns the record id obtained by incrementing `num_records`
(so id 1), decreases `end_free` by `len(data)`, places the bytes at offset
`end_free + 1`, and an immediately following `get` of that id returns bytes
identical to `data`. -/
theorem add_then_get_fresh (d : List Nat)
    (hfits : freshPage.has_room d.length = true) :
    (freshPage.add d).2 = .ok (freshPage.num_records + 1) ∧
    (freshPage.add d).1.num_records = 1 ∧
    (freshPage.add d).1.end_free = freshPage.end_free - d.length ∧
    readBytes (freshPage.add d).1.block ((freshPage.add d).1.end_free + 1) d.length = d ∧
    (freshPage.add d).1.get 1 = some d := by
  have hb : d.length + 4 ≤ 4091 := (freshPage_has_room_iff d.length).mp hfits
  have hd : d.length < 65536 := by omega
  have hmod : d.length % 65536 = d.length := Nat.mod_eq_of_lt hd
  have hA := add_eq_of_has_room freshPage d (by rw [hmod]; exact hfits) hd
    (by rw [freshPage_num_records]; omega)
    (by rw [freshPage_end_free]; omega)
    (by rw [freshPage_end_free]; omega)
  rw [hA]
  simp only [freshPage_num_records, freshPage_end_free, Nat.zero_add, Nat.mul_one]
  refine ⟨trivial, trivial, trivial, ?_, ?_⟩
  · exact readBytes_writeBytes_same _ _ d
  · refine get_of _ 1 d.length (4095 - d.length + 1) d ?_ ?_
      (by omega) (readBytes_writeBytes_same _ _ d)
    · show rawGetN _ 4 = d.length
      rw [rawGetN_writeBytes_ne _ _ _ _ (by omega),
        rawGetN_writeN_ne _ _ _ _ (by omega),
        rawGetN_writeN_same]
      exact hmod
    · show rawGetN _ 6 = 4095 - d.length + 1
      rw [rawGetN_writeBytes_ne _ _ _ _ (by omega),
        rawGetN_writeN_same]
      omega

/-- C3 witness: a concrete fitting byte string round-trips through `add`/`get`
on the fresh page. -/
theorem add_then_get_fresh_witness :
    freshPage.has_room ([9, 8, 7] : List Nat).length = true ∧
    ((freshPage.add [9, 8, 7]).2 = .ok (freshPage.num_records + 1) ∧
      (freshPage.add [9, 8, 7]).1.num_records = 1 ∧
      (freshPage.add [9, 8, 7]).1.end_free = freshPage.end_free - ([9, 8, 7] : List Nat).length ∧
      readBytes (freshPage.add [9, 8, 7]).1.block
        ((freshPage.add [9, 8, 7]).1.end_free + 1) ([9, 8, 7] : List Nat).length = [9, 8, 7] ∧
      (freshPage.add [9, 8, 7]).1.get 1 = some [9, 8, 7]) :=
  ⟨by decide, add_then_get_fresh [9, 8, 7] (by decide)⟩

/-- C4: `add` raises `NoRoomError` exactly when `has_room(len(data))` is
false, where `has_room(size)` computes `available = end_free -
4*(num_records+1)` and tests `size + 4 <= available`; and on `NoRoomError`
the page state is completely unchanged.  Stated for pages satisfying the
structural invariant `4*(num_records+1) ≤ end_free < 2^16` (every page the
source builds satisfies it, since `end_free ≤ BLOCK_SZ - 1`). -/
theorem add_noroom_iff (p : SlottedPage) (d : List Nat)
    (hd : d.length < 65536)
    (hinv : 4 * (p.num_records + 1) ≤ p.end_free)
    (hef : p.end_free < 65536) :
    (((p.add d).2 = Except.error "not enough room for new record") ↔
      ¬(d.length + 4 ≤ p.end_free - 4 * (p.num_records + 1))) ∧
    (((p.add d).2 = Except.error "not enough room for new record") →
      (p.add d).1 = p) := by
  have hmod : d.length % 65536 = d.length := Nat.mod_eq_of_lt hd
  by_cases hr : p.has_room (d.length % 65536) = true
  · have hform : d.length + 4 ≤ p.end_free - 4 * (p.num_records + 1) :=
      (has_room_iff p d.length hinv hef).mp (hmod ▸ hr)
    have hok : ¬((p.add d).2 = Except.error "not enough room for new record") := by
      rw [SlottedPage.add, hr]
      simp
    exact ⟨⟨fun herr => absurd herr hok, fun hno => absurd hform hno⟩,
      fun herr => absurd herr hok⟩
  · have hr' : p.has_room (d.length % 65536) = false := by
      simpa using hr
    have herr : (p.add d) = (p, Except.error "not enough room for new record") := by
      rw [SlottedPage.add, hr']
      simp
    rw [herr]
    have hnot : ¬(d.length + 4 ≤ p.end_free - 4 * (p.num_records + 1)) := fun hle =>
      hr (by rw [hmod]; exact (has_room_iff p d.length hinv hef).mpr hle)
    exact ⟨⟨fun _ => hnot, fun _ => rfl⟩, fun _ => rfl⟩

/-- C4 witness: a 4088-byte record does not fit on a fresh page
(`available = 4091`), and `add` reports exactly the no-room error. -/
theorem add_noroom_iff_witness :
    (List.replicate 4088 0).length < 65536 ∧
    4 * (freshPage.num_records + 1) ≤ freshPage.end_free ∧
    freshPage.end_free < 65536 ∧
    (freshPage.add (List.replicate 4088 0)).2 =
      Except.error "not enough room for new record" :=
  ⟨by rw [List.length_replicate]; omega,
    by rw [freshPage_num_records, freshPage_end_free]; omega,
    by rw [freshPage_end_free]; omega,
    (add_noroom_iff freshPage (List.replicate 4088 0)
      (by rw [List.length_replicate]; omega)
      (by rw [freshPage_num_records, freshPage_end_free]; omega)
      (by rw [freshPage_end_free]; omega)).1.mpr
      (by rw [List.length_replicate, freshPage_num_records, freshPage_end_free]; omega)⟩

/-- Decidable equality of `Except` results, for evaluating the model on
concrete inputs. -/
instance exceptDecEq {ε α : Type} [DecidableEq ε] [DecidableEq α] :
    DecidableEq (Except ε α) := fun x y =>
  match x, y with
  | .ok a, .ok b =>
    if h : a = b then isTrue (by rw [h])
    else isFalse (by intro hc; cases hc; exact h rfl)
  | .error a, .error b =>
    if h : a = b then isTrue (by rw [h])
    else isFalse (by intro hc; cases hc; exact h rfl)
  | .ok _, .error _ => isFalse (by intro hc; cases hc)
  | .error _, .ok _ => isFalse (by intro hc; cases hc)

-- C2: the source's `SlottedPage::put` computes `u16 new_size = sizeof(data)`
-- where `data` is the `const Dbt&` parameter, i.e. the size of the Dbt
-- descriptor struct (40 bytes), not `data.get_size()`.  Replacing a 5-byte
-- record with 100 new bytes therefore stores the first 40 bytes only.

/-- A 5-byte record to overwrite. -/
def c2Old : List Nat := [10, 11, 12, 13, 14]

/-- The 100-byte replacement data. -/
def c2New : List Nat := List.range 100

/-- C2 (code bug): after a successful growing `put(1, c2New)` on a page whose
record 1 holds 5 bytes, `get 1` returns the first `SIZEOF_DBT = 40` bytes of
the new data — not the new bytes themselves — because the source uses
`sizeof(data)` (the `Dbt` struct size) as the new record length. -/
theorem put_uses_sizeof_dbt :
    (((freshPage.add c2Old).1.put 1 c2New).2 = .ok ()) ∧
    (((freshPage.add c2Old).1.put 1 c2New).1.get 1 = some (c2New.take SIZEOF_DBT)) ∧
    (((freshPage.add c2Old).1.put 1 c2New).1.get 1 ≠ some c2New) := by
  refine ⟨by decide, by decide, by decide⟩

theorem get_n_eq_raw (p : SlottedPage) (o : Nat) (h : o < 65536) :
    p.get_n o = rawGetN p.block o := by
  rw [SlottedPage.get_n, Nat.mod_eq_of_lt h]

/-- Abstract characterization of a successful `add`: the returned id, the
field updates, the new slot header, the copied bytes, and the frame — every
other slot header and every byte above the old `end_free` is untouched. -/
theorem add_spec (p : SlottedPage) (d : List Nat)
    (hr : p.has_room (d.length % 65536) = true) (hd : d.length < 65536)
    (hinv : 4 * (p.num_records + 1) ≤ p.end_free) (hef : p.end_free < 65535) :
    (p.add d).2 = .ok (p.num_records + 1) ∧
    (p.add d).1.num_records = p.num_records + 1 ∧
    (p.add d).1.end_free = p.end_free - d.length ∧
    (p.add d).1.block_id = p.block_id ∧
    (p.add d).1.get_n (4 * (p.num_records + 1)) = d.length ∧
    (p.add d).1.get_n (4 * (p.num_records + 1) + 2) = p.end_free - d.length + 1 ∧
    (∀ o, 4 ≤ o → o + 2 ≤ 4 * (p.num_records + 1) → (p.add d).1.get_n o = p.get_n o) ∧
    readBytes (p.add d).1.block (p.end_free - d.length + 1) d.length = d ∧
    (∀ loc len, p.end_free + 1 ≤ loc →
      readBytes (p.add d).1.block loc len = readBytes p.block loc len) := by
  have hgap : 4 * (p.num_records + 1) + 4 + d.length ≤ p.end_free := by
    have := (has_room_iff p (d.length % 65536) hinv (by omega)).mp hr
    omega
  have hA := add_eq_of_has_room p d hr hd (by omega) (by omega) hef
  rw [hA]
  refine ⟨rfl, rfl, rfl, rfl, ?_, ?_, ?_, ?_, ?_⟩
  · rw [get_n_eq_raw _ _ (by omega)]
    show rawGetN _ (4 * (p.num_records + 1)) = d.length
    rw [rawGetN_writeBytes_ne _ _ _ _ (by omega),
      rawGetN_writeN_ne _ _ _ _ (by omega),
      rawGetN_writeN_same]
    omega
  · rw [get_n_eq_raw _ _ (by omega)]
    show rawGetN _ (4 * (p.num_records + 1) + 2) = p.end_free - d.length + 1
    rw [rawGetN_writeBytes_ne _ _ _ _ (by omega),
      rawGetN_writeN_same]
    omega
  · intro o ho4 holt
    rw [get_n_eq_raw _ _ (by omega), get_n_eq_raw _ _ (by omega)]
    show rawGetN _ o = rawGetN p.block o
    rw [rawGetN_writeBytes_ne _ _ _ _ (by omega),
      rawGetN_writeN_ne _ _ _ _ (by omega),
      rawGetN_writeN_ne _ _ _ _ (by omega),
      rawGetN_writeN_ne _ _ _ _ (by omega),
      rawGetN_writeN_ne _ _ _ _ (by omega)]
  · exact readBytes_writeBytes_same _ _ d
  · intro loc len hloc
    show readBytes _ loc len = readBytes p.block loc len
    rw [readBytes_writeBytes_ne _ _ _ _ _ (by omega),
      readBytes_writeN_ne _ _ _ _ _ (by omega),
      readBytes_writeN_ne _ _ _ _ _ (by omega),
      readBytes_writeN_ne _ _ _ _ _ (by omega),
      readBytes_writeN_ne _ _ _ _ _ (by omega)]

/-- `ids` of a 3-record page whose middle slot is tombstoned. -/
theorem ids_of_three (q : SlottedPage) (hq : q.num_records = 3)
    (hq6 : q.get_n 6 ≠ 0) (hq10 : q.get_n 10 = 0) (hq14 : q.get_n 14 ≠ 0) :
    q.ids = [1, 3] := by
  unfold SlottedPage.ids
  rw [hq]
  rw [show List.range' 1 3 = [1, 2, 3] from rfl]
  simp only [List.filter_cons, List.filter_nil, Nat.reduceMul, Nat.reduceAdd]
  rw [hq10]
  simp [hq6, hq14]

set_option maxHeartbeats 2000000 in
/-- Behavior of `slide(loc_B, loc_B + len_B)` (the `del`-of-the-middle-record
case) on a 3-record page whose middle slot header is already zeroed: the
third record's bytes move up by `lb`, its header is fixed up, the first
record and its header are untouched, and the live ids are `[1, 3]`. -/
theorem slide_spec (q : SlottedPage) (la lb lc : Nat)
    (hbound : la + lb + lc ≤ 4079) (hlb : 0 < lb)
    (hnum : q.num_records = 3)
    (hef : q.end_free = 4095 - la - lb - lc)
    (h4 : q.get_n 4 = la) (h6 : q.get_n 6 = 4096 - la)
    (h10 : q.get_n 10 = 0)
    (h12 : q.get_n 12 = lc) (h14 : q.get_n 14 = 4096 - la - lb - lc) :
    (q.slide (4096 - la - lb) (4096 - la - lb + lb)).get_n 4 = la ∧
    (q.slide (4096 - la - lb) (4096 - la - lb + lb)).get_n 6 = 4096 - la ∧
    (q.slide (4096 - la - lb) (4096 - la - lb + lb)).get_n 10 = 0 ∧
    (q.slide (4096 - la - lb) (4096 - la - lb + lb)).get_n 12 = lc ∧
    (q.slide (4096 - la - lb) (4096 - la - lb + lb)).get_n 14 = 4096 - la - lc ∧
    (q.slide (4096 - la - lb) (4096 - la - lb + lb)).num_records = 3 ∧
    readBytes (q.slide (4096 - la - lb) (4096 - la - lb + lb)).block (4096 - la) la =
      readBytes q.block (4096 - la) la ∧
    readBytes (q.slide (4096 - la - lb) (4096 - la - lb + lb)).block (4096 - la - lc) lc =
      readBytes q.block (4096 - la - lb - lc) lc := by
  simp only [SlottedPage.slide]
  have e1 : (4096 - la - lb) % 65536 = 4096 - la - lb := by omega
  have e2 : (4096 - la - lb + lb) % 65536 = 4096 - la - lb + lb := by omega
  simp only [e1, e2]
  have e3 : (4096 - la - lb + lb + 65536 - (4096 - la - lb)) % 65536 = lb := by omega
  simp only [e3]
  rw [if_neg (by omega : ¬ lb = 0)]
  have e4 : (q.end_free + 1) % 65536 = 4096 - la - lb - lc := by rw [hef]; omega
  have e5 : (q.end_free + lb + 1) % 65536 = 4096 - la - lc := by rw [hef]; omega
  simp only [e4, e5]
  have e6 : (4096 - la - lb + 65536 - (4096 - la - lb - lc)) % 65536 = lc := by omega
  simp only [e6]
  -- the page after the memmove
  have hP1_4 : SlottedPage.get_n
      { q with block := moveBytes q.block (4096 - la - lc) (4096 - la - lb - lc) lc } 4 = la := by
    rw [get_n_eq_raw _ _ (by omega)]
    show rawGetN _ 4 = la
    rw [rawGetN_moveBytes_ne _ _ _ _ _ (by omega), ← get_n_eq_raw q 4 (by omega)]
    exact h4
  have hP1_6 : SlottedPage.get_n
      { q with block := moveBytes q.block (4096 - la - lc) (4096 - la - lb - lc) lc } 6 = 4096 - la := by
    rw [get_n_eq_raw _ _ (by omega)]
    show rawGetN _ 6 = 4096 - la
    rw [rawGetN_moveBytes_ne _ _ _ _ _ (by omega), ← get_n_eq_raw q 6 (by omega)]
    exact h6
  have hP1_10 : SlottedPage.get_n
      { q with block := moveBytes q.block (4096 - la - lc) (4096 - la - lb - lc) lc } 10 = 0 := by
    rw [get_n_eq_raw _ _ (by omega)]
    show rawGetN _ 10 = 0
    rw [rawGetN_moveBytes_ne _ _ _ _ _ (by omega), ← get_n_eq_raw q 10 (by omega)]
    exact h10
  have hP1_12 : SlottedPage.get_n
      { q with block := moveBytes q.block (4096 - la - lc) (4096 - la - lb - lc) lc } 12 = lc := by
    rw [get_n_eq_raw _ _ (by omega)]
    show rawGetN _ 12 = lc
    rw [rawGetN_moveBytes_ne _ _ _ _ _ (by omega), ← get_n_eq_raw q 12 (by omega)]
    exact h12
  have hP1_14 : SlottedPage.get_n
      { q with block := moveBytes q.block (4096 - la - lc) (4096 - la - lb - lc) lc } 14 =
      4096 - la - lb - lc := by
    rw [get_n_eq_raw _ _ (by omega)]
    show rawGetN _ 14 = 4096 - la - lb - lc
    rw [rawGetN_moveBytes_ne _ _ _ _ _ (by omega), ← get_n_eq_raw q 14 (by omega)]
    exact h14
  have hids : SlottedPage.ids
      { q with block := moveBytes q.block (4096 - la - lc) (4096 - la - lb - lc) lc } = [1, 3] :=
    ids_of_three _ hnum (by rw [hP1_6]; omega) hP1_10 (by rw [hP1_14]; omega)
  rw [hids]
  simp only [List.foldl_cons, List.foldl_nil, Nat.reduceMul, Nat.reduceAdd]
  rw [hP1_6, if_neg (by omega : ¬ 4096 - la ≤ 4096 - la - lb)]
  rw [hP1_12, hP1_14, if_pos (by omega : 4096 - la - lb - lc ≤ 4096 - la - lb)]
  have e7 : (4096 - la - lb - lc + lb) % 65536 = 4096 - la - lc := by omega
  rw [e7]
  simp only [SlottedPage.put_header, SlottedPage.put_n, Nat.reduceEqDiff, reduceIte,
    Nat.reduceMul, Nat.reduceAdd, Nat.reduceMod]
  have e8 : (q.end_free + lb) % 65536 = 4095 - la - lc := by rw [hef]; omega
  simp only [e8]
  refine ⟨?_, ?_, ?_, ?_, ?_, hnum, ?_, ?_⟩
  · rw [get_n_eq_raw _ _ (by omega)]
    show rawGetN _ 4 = la
    rw [rawGetN_writeN_ne _ _ _ _ (by omega), rawGetN_writeN_ne _ _ _ _ (by omega),
      rawGetN_writeN_ne _ _ _ _ (by omega), rawGetN_writeN_ne _ _ _ _ (by omega),
      rawGetN_moveBytes_ne _ _ _ _ _ (by omega), ← get_n_eq_raw q 4 (by omega)]
    exact h4
  · rw [get_n_eq_raw _ _ (by omega)]
    show rawGetN _ 6 = 4096 - la
    rw [rawGetN_writeN_ne _ _ _ _ (by omega), rawGetN_writeN_ne _ _ _ _ (by omega),
      rawGetN_writeN_ne _ _ _ _ (by omega), rawGetN_writeN_ne _ _ _ _ (by omega),
      rawGetN_moveBytes_ne _ _ _ _ _ (by omega), ← get_n_eq_raw q 6 (by omega)]
    exact h6
  · rw [get_n_eq_raw _ _ (by omega)]
    show rawGetN _ 10 = 0
    rw [rawGetN_writeN_ne _ _ _ _ (by omega), rawGetN_writeN_ne _ _ _ _ (by omega),
      rawGetN_writeN_ne _ _ _ _ (by omega), rawGetN_writeN_ne _ _ _ _ (by omega),
      rawGetN_moveBytes_ne _ _ _ _ _ (by omega), ← get_n_eq_raw q 10 (by omega)]
    exact h10
  · rw [get_n_eq_raw _ _ (by omega)]
    show rawGetN _ 12 = lc
    rw [rawGetN_writeN_ne _ _ _ _ (by omega), rawGetN_writeN_ne _ _ _ _ (by omega),
      rawGetN_writeN_ne _ _ _ _ (by omega), rawGetN_writeN_same]
    omega
  · rw [get_n_eq_raw _ _ (by omega)]
    show rawGetN _ 14 = 4096 - la - lc
    rw [rawGetN_writeN_ne _ _ _ _ (by omega), rawGetN_writeN_ne _ _ _ _ (by omega),
      rawGetN_writeN_same]
    omega
  · simp only [readBytes]
    refine List.map_congr_left fun k hk => ?_
    have hk' : k < la := List.mem_range.mp hk
    simp only [writeN, moveBytes, upd]
    iterate 9 rw [if_neg (by omega)]
  · simp only [readBytes]
    refine List.map_congr_left fun k hk => ?_
    have hk' : k < lc := List.mem_range.mp hk
    simp only [writeN, moveBytes, upd]
    iterate 8 rw [if_neg (by omega)]
    rw [if_pos (by omega)]
    congr 1
    omega

/-- `del(2)` on a page holding exactly three records laid out by three
consecutive `add`s: record 1 keeps its bytes, record 2 becomes a tombstone,
record 3's bytes survive the compaction slide, and the live ids are `[1,3]`. -/
theorem del_spec (p : SlottedPage) (la lb lc : Nat) (a c : List Nat)
    (hbound : la + lb + lc ≤ 4079)
    (hnum : p.num_records = 3)
    (hef : p.end_free = 4095 - la - lb - lc)
    (h4 : p.get_n 4 = la) (h6 : p.get_n 6 = 4096 - la)
    (h8 : p.get_n 8 = lb) (h10 : p.get_n 10 = 4096 - la - lb)
    (h12 : p.get_n 12 = lc) (h14 : p.get_n 14 = 4096 - la - lb - lc)
    (hreadA : readBytes p.block (4096 - la) la = a)
    (hreadC : readBytes p.block (4096 - la - lb - lc) lc = c) :
    (p.del 2).get 1 = some a ∧ (p.del 2).get 2 = none ∧
    (p.del 2).get 3 = some c ∧ (p.del 2).ids = [1, 3] := by
  simp only [SlottedPage.del, Nat.reduceMul, Nat.reduceAdd]
  rw [h8, h10]
  simp only [SlottedPage.put_header, SlottedPage.put_n, Nat.reduceEqDiff, reduceIte,
    Nat.reduceMul, Nat.reduceAdd, Nat.reduceMod]
  have hq4 : SlottedPage.get_n { p with block := writeN (writeN p.block 8 0) 10 0 } 4 = la := by
    rw [get_n_eq_raw _ _ (by omega)]
    show rawGetN _ 4 = la
    rw [rawGetN_writeN_ne _ _ _ _ (by omega), rawGetN_writeN_ne _ _ _ _ (by omega),
      ← get_n_eq_raw p 4 (by omega)]
    exact h4
  have hq6 : SlottedPage.get_n { p with block := writeN (writeN p.block 8 0) 10 0 } 6 =
      4096 - la := by
    rw [get_n_eq_raw _ _ (by omega)]
    show rawGetN _ 6 = 4096 - la
    rw [rawGetN_writeN_ne _ _ _ _ (by omega), rawGetN_writeN_ne _ _ _ _ (by omega),
      ← get_n_eq_raw p 6 (by omega)]
    exact h6
  have hq10 : SlottedPage.get_n { p with block := writeN (writeN p.block 8 0) 10 0 } 10 = 0 := by
    rw [get_n_eq_raw _ _ (by omega)]
    show rawGetN _ 10 = 0
    rw [rawGetN_writeN_same]
  have hq12 : SlottedPage.get_n { p with block := writeN (writeN p.block 8 0) 10 0 } 12 = lc := by
    rw [get_n_eq_raw _ _ (by omega)]
    show rawGetN _ 12 = lc
    rw [rawGetN_writeN_ne _ _ _ _ (by omega), rawGetN_writeN_ne _ _ _ _ (by omega),
      ← get_n_eq_raw p 12 (by omega)]
    exact h12
  have hq14 : SlottedPage.get_n { p with block := writeN (writeN p.block 8 0) 10 0 } 14 =
      4096 - la - lb - lc := by
    rw [get_n_eq_raw _ _ (by omega)]
    show rawGetN _ 14 = 4096 - la - lb - lc
    rw [rawGetN_writeN_ne _ _ _ _ (by omega), rawGetN_writeN_ne _ _ _ _ (by omega),
      ← get_n_eq_raw p 14 (by omega)]
    exact h14
  have hqreadA : readBytes (writeN (writeN p.block 8 0) 10 0) (4096 - la) la = a := by
    rw [readBytes_writeN_ne _ _ _ _ _ (by omega), readBytes_writeN_ne _ _ _ _ _ (by omega)]
    exact hreadA
  have hqreadC : readBytes (writeN (writeN p.block 8 0) 10 0) (4096 - la - lb - lc) lc = c := by
    rw [readBytes_writeN_ne _ _ _ _ _ (by omega), readBytes_writeN_ne _ _ _ _ _ (by omega)]
    exact hreadC
  by_cases hlb : lb = 0
  · subst hlb
    simp only [Nat.sub_zero, Nat.add_zero] at hq14 hqreadC ⊢
    simp only [SlottedPage.slide]
    have z1 : (4096 - la) % 65536 = 4096 - la := by omega
    simp only [z1]
    have z3 : (4096 - la + 65536 - (4096 - la)) % 65536 = 0 := by omega
    simp only [z3, if_true]
    refine ⟨get_of _ 1 la (4096 - la) a hq4 hq6 (by omega) hqreadA,
      get_tombstone _ 2 hq10,
      get_of _ 3 lc (4096 - la - lc) c hq12 hq14 (by omega) hqreadC,
      ids_of_three _ hnum (by rw [hq6]; omega) hq10 (by rw [hq14]; omega)⟩
  · have hS := slide_spec { p with block := writeN (writeN p.block 8 0) 10 0 } la lb lc
      hbound (by omega) hnum hef hq4 hq6 hq10 hq12 hq14
    obtain ⟨s4, s6, s10, s12, s14, snum, srA, srC⟩ := hS
    refine ⟨get_of _ 1 la (4096 - la) a s4 s6 (by omega) (srA.trans hqreadA),
      get_tombstone _ 2 s10,
      get_of _ 3 lc (4096 - la - lc) c s12 s14 (by omega) (srC.trans hqreadC),
      ids_of_three _ snum (by rw [s6]; omega) s10 (by rw [s14]; omega)⟩

/-- C5: for every page holding three records A, B, C added in that order,
after `del(B)`: `get(B)` returns no data, `get(A)` and `get(C)` return their
original bytes unchanged, and `ids()` yields exactly `[A, C]` in ascending
order.  (Record lengths are below 2^16, as any `Dbt` record's length is.) -/
theorem del_compaction (a b c : List Nat)
    (ha : a.length < 65536) (hb : b.length < 65536) (hc : c.length < 65536)
    (h1 : (freshPage.add a).2 = .ok 1)
    (h2 : ((freshPage.add a).1.add b).2 = .ok 2)
    (h3 : (((freshPage.add a).1.add b).1.add c).2 = .ok 3) :
    ((((freshPage.add a).1.add b).1.add c).1.del 2).get 1 = some a ∧
    ((((freshPage.add a).1.add b).1.add c).1.del 2).get 2 = none ∧
    ((((freshPage.add a).1.add b).1.add c).1.del 2).get 3 = some c ∧
    ((((freshPage.add a).1.add b).1.add c).1.del 2).ids = [1, 3] := by
  have hr1 : freshPage.has_room (a.length % 65536) = true := add_ok_has_room _ _ _ h1
  have hb1 : a.length + 4 ≤ 4091 := by
    have := (freshPage_has_room_iff (a.length % 65536)).mp hr1
    omega
  have A1 := add_spec freshPage a hr1 ha
    (by rw [freshPage_num_records, freshPage_end_free]; omega)
    (by rw [freshPage_end_free]; omega)
  obtain ⟨-, a2, a3, -, a5, a6, a7, a8, a9⟩ := A1
  simp only [freshPage_num_records, freshPage_end_free, Nat.reduceAdd, Nat.reduceMul]
    at a2 a3 a5 a6 a7 a8 a9
  have hr2 : ((freshPage.add a).1).has_room (b.length % 65536) = true :=
    add_ok_has_room _ _ _ h2
  have hab : a.length + b.length ≤ 4083 := by
    have := (has_room_iff _ (b.length % 65536) (by rw [a2, a3]; omega)
      (by rw [a3]; omega)).mp hr2
    rw [a2, a3] at this
    omega
  have A2 := add_spec ((freshPage.add a).1) b hr2 hb (by rw [a2, a3]; omega)
    (by rw [a3]; omega)
  obtain ⟨-, b2, b3, -, b5, b6, b7, -, b9⟩ := A2
  simp only [a2, a3, Nat.reduceAdd, Nat.reduceMul] at b2 b3 b5 b6 b7 b9
  have hr3 : (((freshPage.add a).1.add b).1).has_room (c.length % 65536) = true :=
    add_ok_has_room _ _ _ h3
  have habc : a.length + b.length + c.length ≤ 4079 := by
    have := (has_room_iff _ (c.length % 65536) (by rw [b2, b3]; omega)
      (by rw [b3]; omega)).mp hr3
    rw [b2, b3] at this
    omega
  have A3 := add_spec (((freshPage.add a).1.add b).1) c hr3 hc (by rw [b2, b3]; omega)
    (by rw [b3]; omega)
  obtain ⟨-, c2, c3, -, c5, c6, c7, c8, c9⟩ := A3
  simp only [b2, b3, Nat.reduceAdd, Nat.reduceMul] at c2 c3 c5 c6 c7 c8 c9
  rw [show 4095 - a.length + 1 = 4096 - a.length from by omega] at a6 a8
  rw [show 4095 - a.length - b.length + 1 = 4096 - a.length - b.length from by omega] at b6
  rw [show 4095 - a.length - b.length - c.length + 1 =
    4096 - a.length - b.length - c.length from by omega] at c6 c8
  exact del_spec _ a.length b.length c.length a c
    (by omega) c2 c3
    (by rw [c7 4 (by omega) (by omega), b7 4 (by omega) (by omega)]; exact a5)
    (by rw [c7 6 (by omega) (by omega), b7 6 (by omega) (by omega)]; exact a6)
    (by rw [c7 8 (by omega) (by omega)]; exact b5)
    (by rw [c7 10 (by omega) (by omega)]; exact b6)
    c5 c6
    (by rw [c9 _ a.length (by omega), b9 _ a.length (by omega)]; exact a8)
    c8

/-- C5 witness: concrete records `[1,2]`, `[3,4,5]`, `[6]` on a fresh page. -/
theorem del_compaction_witness :
    ((freshPage.add [1, 2]).2 = .ok 1) ∧
    (((freshPage.add [1, 2]).1.add [3, 4, 5]).2 = .ok 2) ∧
    ((((freshPage.add [1, 2]).1.add [3, 4, 5]).1.add [6]).2 = .ok 3) ∧
    (((((freshPage.add [1, 2]).1.add [3, 4, 5]).1.add [6]).1.del 2).get 1 = some [1, 2] ∧
      ((((freshPage.add [1, 2]).1.add [3, 4, 5]).1.add [6]).1.del 2).get 2 = none ∧
      ((((freshPage.add [1, 2]).1.add [3, 4, 5]).1.add [6]).1.del 2).get 3 = some [6] ∧
      ((((freshPage.add [1, 2]).1.add [3, 4, 5]).1.add [6]).1.del 2).ids = [1, 3]) :=
  ⟨by decide, by decide, by decide,
    del_compaction [1, 2] [3, 4, 5] [6] (by decide) (by decide) (by decide)
      (by decide) (by decide) (by decide)⟩

-- Typed values and row (de)serialization (`storage_engine.h`, `HeapTable`).

/-- `ColumnAttribute::DataType` from `storage_engine.h`. -/
inductive DataType
  | INT
  | TEXT
deriving DecidableEq

/-- `ColumnAttribute`: holds the data type of a column. -/
structure ColumnAttribute where
  data_type : DataType
deriving DecidableEq

/-- `Value`: the tagged union from `storage_engine.h` with fields
`data_type`, `n : int32_t`, `s : std::string` (modelled as its bytes). -/
structure Value where
  data_type : DataType
  n : Int
  s : List Nat
deriving DecidableEq

/-- The `Value(int32_t)` constructor: `data_type = INT`, `s = ""`. -/
def Value.ofInt (n : Int) : Value := ⟨DataType.INT, n, []⟩

/-- The `Value(std::string)` constructor: `data_type = TEXT`, `n = 0`. -/
def Value.ofText (s : List Nat) : Value := ⟨DataType.TEXT, 0, s⟩

/-- A `ValueDict` (`std::map<Identifier, Value>`) as an association list;
`List.lookup` plays the role of `row->find`. -/
abbrev Row := List (String × Value)

/-- `*(int32_t*)(bytes + offset) = n`: the four little-endian bytes of the
32-bit two's-complement representation. -/
def int32ToBytes (n : Int) : List Nat :=
  let u := (n % 4294967296).toNat
  [u % 256, u / 256 % 256, u / 65536 % 256, u / 16777216 % 256]

/-- The `u32 → int32_t` conversion applied by `Value(*(u32*)(bytes+offset))`
(two's-complement wrap-around, as gcc implements it). -/
def u32ToInt32 (u : Nat) : Int :=
  if u < 2147483648 then (u : Int) else (u : Int) - 4294967296

/-- `*(u16*)(bytes + offset)` on a byte list. -/
def bytesToU16 (bs : List Nat) (o : Nat) : Nat :=
  bs.getD o 0 + 256 * bs.getD (o + 1) 0

/-- `*(u32*)(bytes + offset)` on a byte list. -/
def bytesToU32 (bs : List Nat) (o : Nat) : Nat :=
  bs.getD o 0 + 256 * bs.getD (o + 1) 0 + 65536 * bs.getD (o + 2) 0 +
    16777216 * bs.getD (o + 3) 0

/-- `std::string(bytes + offset, size)`. -/
def listSlice (bs : List Nat) (o len : Nat) : List Nat :=
  (List.range len).map fun i => bs.getD (o + i) 0

/-- The encoding `HeapTable::marshal` writes for one column value: INT → the
4 bytes of `value.n`; TEXT → `*(u16*) = value.s.length()` (the low 16 bits)
followed by all the string's bytes. -/
def encodeValue (ca : ColumnAttribute) (v : Value) : List Nat :=
  match ca.data_type with
  | DataType.INT => int32ToBytes v.n
  | DataType.TEXT => v.s.length % 256 :: v.s.length / 256 % 256 :: v.s

/-- `HeapTable::marshal` over the schema columns (name, attribute) in order:
look each column up in the row (`row->find`; a missing key, undefined in the
source, yields `none`) and concatenate the encodings. -/
def marshalCols : List (String × ColumnAttribute) → Row → Option (List Nat)
  | [], _ => some []
  | (nm, ca) :: rest, row =>
    match List.lookup nm row with
    | none => none
    | some v => (marshalCols rest row).map fun tail => encodeValue ca v ++ tail

/-- `HeapTable::unmarshal` over the schema columns in order, consuming the
byte stream at increasing offsets. -/
def unmarshalCols : List (String × ColumnAttribute) → List Nat → Nat → Row
  | [], _, _ => []
  | (nm, ca) :: rest, bytes, offset =>
    match ca.data_type with
    | DataType.INT =>
      (nm, Value.ofInt (u32ToInt32 (bytesToU32 bytes offset))) ::
        unmarshalCols rest bytes (offset + 4)
    | DataType.TEXT =>
      let size := bytesToU16 bytes offset
      (nm, Value.ofText (listSlice bytes (offset + 2) size)) ::
        unmarshalCols rest bytes (offset + 2 + size)

/-- The row value stored under a column "has the matching type": built by the
`Value` constructor for that column's data type, an INT fits in `int32_t`,
and a TEXT is a byte string whose length fits the 2-byte prefix. -/
def matchesAttrB (v : Value) (ca : ColumnAttribute) : Bool :=
  match ca.data_type with
  | DataType.INT =>
    v.data_type == DataType.INT && v.s == ([] : List Nat) &&
      decide (-2147483648 ≤ v.n) && decide (v.n < 2147483648)
  | DataType.TEXT =>
    v.data_type == DataType.TEXT && v.n == 0 &&
      decide (v.s.length < 65536) && v.s.all fun b => decide (b < 256)

/-- The row holds a matching value for schema column `p`. -/
def rowHasMatch (row : Row) (p : String × ColumnAttribute) : Bool :=
  match List.lookup p.1 row with
  | some v => matchesAttrB v p.2
  | none => false

-- Round-trip support lemmas for the row wire format.

theorem getD_append_self (pre l : List Nat) : (pre ++ l).getD pre.length 0 = l.getD 0 0 := by
  rw [List.getD_append_right pre l 0 pre.length (Nat.le_refl _)]
  simp

theorem getD_append_add (pre l : List Nat) (i : Nat) :
    (pre ++ l).getD (pre.length + i) 0 = l.getD i 0 := by
  rw [List.getD_append_right pre l 0 _ (Nat.le_add_right _ _)]
  congr 1
  omega

theorem int32_roundtrip (n : Int) (h1 : -2147483648 ≤ n) (h2 : n < 2147483648)
    (pre post : List Nat) :
    u32ToInt32 (bytesToU32 (pre ++ (int32ToBytes n ++ post)) pre.length) = n := by
  rw [bytesToU32, getD_append_self, getD_append_add, getD_append_add, getD_append_add]
  rw [show (int32ToBytes n ++ post).getD 0 0 = (n % 4294967296).toNat % 256 from rfl,
    show (int32ToBytes n ++ post).getD 1 0 = (n % 4294967296).toNat / 256 % 256 from rfl,
    show (int32ToBytes n ++ post).getD 2 0 = (n % 4294967296).toNat / 65536 % 256 from rfl,
    show (int32ToBytes n ++ post).getD 3 0 = (n % 4294967296).toNat / 16777216 % 256 from rfl]
  unfold u32ToInt32
  split_ifs with hc
  · omega
  · omega

theorem bytesToU16_append (pre post : List Nat) (l0 l1 : Nat) :
    bytesToU16 (pre ++ (l0 :: l1 :: post)) pre.length = l0 + 256 * l1 := by
  rw [bytesToU16, getD_append_self, getD_append_add]
  rfl

theorem listSlice_append (pre s post : List Nat) :
    listSlice (pre ++ (s ++ post)) pre.length s.length = s := by
  refine List.ext_getElem (by simp [listSlice]) fun i h1 h2 => ?_
  have hi : i < s.length := by simpa [listSlice] using h1
  simp only [listSlice, List.getElem_map, List.getElem_range]
  rw [getD_append_add]
  rw [List.getD_append s post 0 i hi]
  exact List.getD_eq_getElem s 0 hi

theorem unmarshal_marshal_aux (cols : List (String × ColumnAttribute)) :
    ∀ (row : Row) (bs pre : List Nat),
      marshalCols cols row = some bs →
      (∀ p ∈ cols, rowHasMatch row p = true) →
      unmarshalCols cols (pre ++ bs) pre.length =
        cols.map fun p => (p.1, (List.lookup p.1 row).getD (Value.ofInt 0)) := by
  induction cols with
  | nil =>
    intro row bs pre hm _
    simp only [marshalCols, Option.some.injEq] at hm
    subst hm
    rfl
  | cons hd rest ih =>
    obtain ⟨nm, ca⟩ := hd
    intro row bs pre hm hv
    have hmv := hv (nm, ca) (List.mem_cons_self _ _)
    cases hlk : List.lookup nm row with
    | none => rw [marshalCols, hlk] at hm; cases hm
    | some v =>
      rw [marshalCols, hlk] at hm
      cases hmr : marshalCols rest row with
      | none => rw [hmr] at hm; cases hm
      | some tail =>
        rw [hmr] at hm
        have hm' : encodeValue ca v ++ tail = bs := by simpa using hm
        subst hm'
        rw [rowHasMatch] at hmv
        simp only [hlk] at hmv
        have hvrest : ∀ p ∈ rest, rowHasMatch row p = true :=
          fun p hp => hv p (List.mem_cons_of_mem _ hp)
        cases hdt : ca.data_type with
        | INT =>
          rw [matchesAttrB, hdt] at hmv
          simp only [Bool.and_eq_true, beq_iff_eq, decide_eq_true_eq] at hmv
          obtain ⟨⟨⟨hvd, hvs⟩, hlo⟩, hhi⟩ := hmv
          rw [unmarshalCols]
          simp only [hdt, encodeValue, List.map_cons]
          have hhead : Value.ofInt (u32ToInt32 (bytesToU32
              (pre ++ (int32ToBytes v.n ++ tail)) pre.length)) = v := by
            rw [int32_roundtrip v.n hlo hhi pre tail]
            cases v
            simp only [Value.ofInt]
            simp_all
          rw [hhead, hlk]
          have hlen4 : (int32ToBytes v.n).length = 4 := rfl
          have htail : unmarshalCols rest (pre ++ (int32ToBytes v.n ++ tail))
              (pre.length + 4) =
              List.map (fun p => (p.1, (List.lookup p.1 row).getD (Value.ofInt 0))) rest := by
            have hre : pre ++ (int32ToBytes v.n ++ tail) =
                (pre ++ int32ToBytes v.n) ++ tail := by simp
            have hoff : pre.length + 4 = (pre ++ int32ToBytes v.n).length := by
              simp [hlen4]
            rw [hre, hoff]
            exact ih row tail (pre ++ int32ToBytes v.n) hmr hvrest
          rw [htail]
          rfl
        | TEXT =>
          rw [matchesAttrB, hdt] at hmv
          simp only [Bool.and_eq_true, beq_iff_eq, decide_eq_true_eq, List.all_eq_true] at hmv
          obtain ⟨⟨⟨hvd, hvn⟩, hslen⟩, hsbytes⟩ := hmv
          rw [unmarshalCols]
          simp only [hdt, encodeValue, List.map_cons]
          have hsz : bytesToU16 (pre ++ ((v.s.length % 256 :: v.s.length / 256 % 256 :: v.s) ++ tail))
              pre.length = v.s.length := by
            rw [show ((v.s.length % 256 :: v.s.length / 256 % 256 :: v.s) ++ tail) =
              (v.s.length % 256 :: v.s.length / 256 % 256 :: (v.s ++ tail)) by simp]
            rw [bytesToU16_append]
            omega
          rw [hsz]
          have hslice : listSlice (pre ++ ((v.s.length % 256 :: v.s.length / 256 % 256 :: v.s) ++ tail))
              (pre.length + 2) v.s.length = v.s := by
            have hre : pre ++ ((v.s.length % 256 :: v.s.length / 256 % 256 :: v.s) ++ tail) =
                (pre ++ [v.s.length % 256, v.s.length / 256 % 256]) ++ (v.s ++ tail) := by simp
            have hoff : pre.length + 2 =
                (pre ++ [v.s.length % 256, v.s.length / 256 % 256]).length := by simp
            rw [hre, hoff]
            exact listSlice_append _ v.s tail
          rw [hslice]
          have hhead : Value.ofText v.s = v := by
            cases v
            simp only [Value.ofText]
            simp_all
          rw [hhead, hlk]
          have htail : unmarshalCols rest
              (pre ++ ((v.s.length % 256 :: v.s.length / 256 % 256 :: v.s) ++ tail))
              (pre.length + 2 + v.s.length) =
              List.map (fun p => (p.1, (List.lookup p.1 row).getD (Value.ofInt 0))) rest := by
            have hre : pre ++ ((v.s.length % 256 :: v.s.length / 256 % 256 :: v.s) ++ tail) =
                (pre ++ (v.s.length % 256 :: v.s.length / 256 % 256 :: v.s)) ++ tail := by simp
            have hoff : pre.length + 2 + v.s.length =
                (pre ++ (v.s.length % 256 :: v.s.length / 256 % 256 :: v.s)).length := by
              simp
              omega
            rw [hre, hoff]
            exact ih row tail _ hmr hvrest
          rw [htail]
          rfl

theorem lookup_mem (k : String) (v : Value) :
    ∀ (l : Row), List.lookup k l = some v → (k, v) ∈ l := by
  intro l
  induction l with
  | nil => intro h; cases h
  | cons hd tl ih =>
    intro h
    obtain ⟨k', v'⟩ := hd
    rw [List.lookup] at h
    by_cases hk : (k == k') = true
    · rw [hk] at h
      have : v' = v := by simpa using h
      subst this
      have : k = k' := by simpa using hk
      subst this
      exact List.mem_cons_self _ _
    · rw [Bool.not_eq_true] at hk
      rw [hk] at h
      exact List.mem_cons_of_mem _ (ih h)

theorem lookup_map_self (g : String → Value) (nm : String) :
    ∀ (l : List (String × ColumnAttribute)),
      List.lookup nm (l.map fun p => (p.1, g p.1)) =
        if nm ∈ l.map Prod.fst then some (g nm) else none := by
  intro l
  induction l with
  | nil => simp
  | cons hd tl ih =>
    simp only [List.map_cons, List.lookup]
    by_cases hk : (nm == hd.1) = true
    · rw [hk]
      have : nm = hd.1 := by simpa using hk
      simp [this]
    · rw [Bool.not_eq_true] at hk
      rw [hk, ih]
      have hne : ¬ nm = hd.1 := by simpa using hk
      by_cases hmem : nm ∈ tl.map Prod.fst
      · simp [hmem, hne]
      · simp [hmem, hne]

theorem mem_zip_left (nm : String) :
    ∀ (l1 : List String) (l2 : List ColumnAttribute), nm ∈ l1 →
      l1.length = l2.length → ∃ ca, (nm, ca) ∈ l1.zip l2 := by
  intro l1
  induction l1 with
  | nil => intro l2 h; cases h
  | cons hd tl ih =>
    intro l2 hmem hlen
    cases l2 with
    | nil => cases hlen
    | cons ca2 tl2 =>
      rcases List.mem_cons.mp hmem with heq | htl
      · exact ⟨ca2, by rw [heq]; exact List.mem_cons_self _ _⟩
      · obtain ⟨ca, hca⟩ := ih tl2 htl (by simpa using hlen)
        exact ⟨ca, List.mem_cons_of_mem _ hca⟩

theorem marshal_roundtrip_names (names : List String) (attrs : List ColumnAttribute)
    (row : Row) (bs : List Nat)
    (hlen : names.length = attrs.length)
    (hkeys : ∀ p ∈ row, p.1 ∈ names)
    (hv : ∀ p ∈ names.zip attrs, rowHasMatch row p = true)
    (hm : marshalCols (names.zip attrs) row = some bs) :
    ∀ nm, List.lookup nm (unmarshalCols (names.zip attrs) bs 0) = List.lookup nm row := by
  intro nm
  have h0 : unmarshalCols (names.zip attrs) bs 0 =
      unmarshalCols (names.zip attrs) (([] : List Nat) ++ bs) ([] : List Nat).length := rfl
  rw [h0, unmarshal_marshal_aux (names.zip attrs) row bs [] hm hv]
  rw [lookup_map_self (fun x => (List.lookup x row).getD (Value.ofInt 0)) nm (names.zip attrs)]
  rw [List.map_fst_zip names attrs (by omega)]
  by_cases hmem : nm ∈ names
  · rw [if_pos hmem]
    obtain ⟨ca, hca⟩ := mem_zip_left nm names attrs hmem hlen
    have := hv (nm, ca) hca
    rw [rowHasMatch] at this
    cases hlk : List.lookup nm row with
    | none => rw [hlk] at this; cases this
    | some v => rfl
  · rw [if_neg hmem]
    cases hlk : List.lookup nm row with
    | none => rfl
    | some v =>
      exact absurd (hkeys (nm, v) (lookup_mem nm v row hlk)) hmem

-- The heap file (`HeapFile`, one 4096-byte block per BerkeleyDB RecNo
-- record) and the heap table (`HeapTable`).

/-- State of `HeapFile`: the `last` block id (`u32`) and the RecNo store,
block id → block bytes. -/
structure HeapFile where
  last : Nat
  store : Nat → Nat → Nat

/-- `HeapFile::get`: fetch raw bytes and wrap them as an existing
`SlottedPage` (the constructor reads `num_records` and `end_free` from the
block header). -/
def HeapFile.get (f : HeapFile) (block_id : Nat) : SlottedPage :=
  { block := f.store block_id,
    num_records := rawGetN (f.store block_id) 0,
    end_free := rawGetN (f.store block_id) 2,
    block_id := block_id }

/-- `HeapFile::put`: write the block's full byte buffer back under its own
block id. -/
def HeapFile.put (f : HeapFile) (b : SlottedPage) : HeapFile :=
  { f with store := fun bid => if bid = b.block_id then b.block else f.store bid }

/-- `HeapFile::get_new`: `int block_id = ++this->last` (u32), format a fresh
zeroed block via the `is_new` constructor, persist it, return the page. -/
def HeapFile.get_new (f : HeapFile) : SlottedPage × HeapFile :=
  let bid := (f.last + 1) % 4294967296
  let page := SlottedPage.new bid
  (page, { last := bid,
           store := fun b => if b = bid then page.block else f.store b })

/-- `HeapFile::block_ids`: `1..last` inclusive, ascending. -/
def HeapFile.block_ids (f : HeapFile) : List Nat := List.range' 1 f.last

/-- `HeapFile::get_last_block_id`. -/
def HeapFile.get_last_block_id (f : HeapFile) : Nat := f.last

/-- `HeapFile::get` in state-passing form: `db.get` performs no write, so the
file comes back unchanged.  Used by `select` to make its read-only behavior
(claim C10) a provable statement rather than a modelling assumption. -/
def HeapFile.getS (f : HeapFile) (block_id : Nat) : SlottedPage × HeapFile :=
  (f.get block_id, f)

/-- `HeapTable`: the schema (`column_names`, `column_attributes` from
`DbRelation`) plus its `HeapFile`. -/
structure HeapTable where
  column_names : List String
  column_attributes : List ColumnAttribute
  file : HeapFile

/-- `HeapTable::marshal` (schema columns zipped with their attributes). -/
def HeapTable.marshal (t : HeapTable) (row : Row) : Option (List Nat) :=
  marshalCols (t.column_names.zip t.column_attributes) row

/-- `HeapTable::unmarshal`. -/
def HeapTable.unmarshal (t : HeapTable) (bytes : List Nat) : Row :=
  unmarshalCols (t.column_names.zip t.column_attributes) bytes 0

/-- `HeapTable::append`: marshal; `add` to the page at `get_last_block_id()`;
on `DbBlockNoRoomError` allocate a new page via `get_new()` and `add` there;
persist via `put`; return `(get_last_block_id(), record_id)` — the last block
id re-read after the possible allocation. -/
def HeapTable.append (t : HeapTable) (row : Row) :
    Except String (HeapTable × (Nat × Nat)) :=
  match t.marshal row with
  | none => .error "row is missing a column"
  | some data =>
    match (t.file.get t.file.get_last_block_id).add data with
    | (block1, .ok record_id) =>
      let f1 := t.file.put block1
      .ok ({ t with file := f1 }, (f1.get_last_block_id, record_id))
    | (_, .error _) =>
      match t.file.get_new with
      | (nb, f2) =>
        match nb.add data with
        | (nb1, .ok record_id) =>
          let f3 := f2.put nb1
          .ok ({ t with file := f3 }, (f3.get_last_block_id, record_id))
        | (_, .error e) => .error e

/-- One iteration of the `select` scan loop: fetch the page for `block_id`
(a read-only `db.get`), then push one handle per live record id. -/
def selectStep (acc : HeapFile × List (Nat × Nat)) (block_id : Nat) :
    HeapFile × List (Nat × Nat) :=
  match acc.1.getS block_id with
  | (block, f1) => (f1, acc.2 ++ block.ids.map fun record_id => (block_id, record_id))

/-- `HeapTable::select(where)`: a non-null `where` throws
`DbRelationError("cannot handle where clauses yet")`; otherwise scan every
block id, fetch the page, and emit one handle per live record id. -/
def HeapTable.select (t : HeapTable) (w : Option Row) :
    HeapTable × Except String (List (Nat × Nat)) :=
  match w with
  | some _ => (t, .error "cannot handle where clauses yet")
  | none =>
    let res := t.file.block_ids.foldl selectStep (t.file, ([] : List (Nat × Nat)))
    ({ t with file := res.1 }, .ok res.2)

/-- `HeapTable::project(handle, column_names)`: fetch the page, `get` the
record, unmarshal.  A tombstoned record makes `get` return `nullptr`, which
the source passes straight into `unmarshal` where it is dereferenced —
modelled as `none` (no defined result).  When `column_names` is non-null the
source copies `(*row)[column_name]` for every name in `this->column_names`
(the table's own columns — the parameter is never read beyond the null
check); `(*row)[...]` default-constructs a `Value()` for an absent key. -/
def HeapTable.project (t : HeapTable) (handle : Nat × Nat)
    (column_names : Option (List String)) : Option Row :=
  let block := t.file.get handle.1
  match block.get handle.2 with
  | none => none
  | some record =>
    let row := t.unmarshal record
    match column_names with
    | none => some row
    | some _ =>
      some (t.column_names.map fun cn => (cn, (List.lookup cn row).getD (Value.ofInt 0)))

-- Concrete demonstration table: columns a:INT, b:TEXT holding the row
-- (a = 12, b = "Hi"), one page, one record.

/-- The row (a = 12, b = "Hi"). -/
def demoRow : Row := [("a", Value.ofInt 12), ("b", Value.ofText [72, 105])]

/-- Its wire encoding: 12 as 4 LE bytes, then length 2 and the bytes of
"Hi". -/
def demoBytes : List Nat := [12, 0, 0, 0, 2, 0, 72, 105]

/-- One-block file whose page holds exactly the marshalled demo row. -/
def demoFile : HeapFile :=
  { last := 1,
    store := fun bid => if bid = 1 then (freshPage.add demoBytes).1.block else fun _ => 0 }

/-- The demo table (columns a:INT, b:TEXT over `demoFile`). -/
def demoTable : HeapTable :=
  ⟨["a", "b"], [⟨DataType.INT⟩, ⟨DataType.TEXT⟩], demoFile⟩

/-- C1: for every row whose keys are exactly the Schema's column names and
whose values have the matching types (INT fits `int32_t` and is an INT
value, TEXT is a byte string shorter than 2^16), unmarshalling the
marshalled bytes yields a row equal (as a key→value map, i.e. under every
lookup) to the original row. -/
theorem marshal_unmarshal_roundtrip (t : HeapTable) (row : Row) (bs : List Nat)
    (hlen : t.column_names.length = t.column_attributes.length)
    (hkeys : ∀ p ∈ row, p.1 ∈ t.column_names)
    (hv : ∀ p ∈ t.column_names.zip t.column_attributes, rowHasMatch row p = true)
    (hm : t.marshal row = some bs)
    (hfit : bs.length ≤ BLOCK_SZ) :
    ∀ nm, List.lookup nm (t.unmarshal bs) = List.lookup nm row := fun nm =>
  marshal_roundtrip_names t.column_names t.column_attributes row bs hlen hkeys hv hm nm

/-- C1 witness: the demo row round-trips; lookup of "b" agrees. -/
theorem marshal_unmarshal_roundtrip_witness :
    demoTable.column_names.length = demoTable.column_attributes.length ∧
    (∀ p ∈ demoRow, p.1 ∈ demoTable.column_names) ∧
    (∀ p ∈ demoTable.column_names.zip demoTable.column_attributes,
      rowHasMatch demoRow p = true) ∧
    demoTable.marshal demoRow = some demoBytes ∧
    demoBytes.length ≤ BLOCK_SZ ∧
    List.lookup "b" (demoTable.unmarshal demoBytes) = List.lookup "b" demoRow :=
  ⟨by decide, by decide, by decide, by decide, by decide,
    marshal_unmarshal_roundtrip demoTable demoRow demoBytes (by decide) (by decide)
      (by decide) (by decide) (by decide) "b"⟩

-- C6: append retries exactly once on a fresh page.

/-- C6: `append(row)` first tries `add` on the page at the last block id; if
that succeeds no page is allocated and the handle is `(last, rid)`; if and
only if it raises `NoRoomError`, exactly one new page is allocated via
`get_new` and the record added there, and the handle pairs the re-read last
block id (the new page's id) with the returned record id. -/
theorem append_retry (t : HeapTable) (row : Row) (bs : List Nat)
    (hm : t.marshal row = some bs) (hlast : t.file.last + 1 < 4294967296) :
    (∀ rid, ((t.file.get t.file.get_last_block_id).add bs).2 = .ok rid →
      (t.append row).toOption.map (fun r => (r.2.1, r.2.2, r.1.file.last)) =
        some (t.file.last, rid, t.file.last)) ∧
    (∀ e rid, ((t.file.get t.file.get_last_block_id).add bs).2 = .error e →
      ((SlottedPage.new ((t.file.last + 1) % 4294967296)).add bs).2 = .ok rid →
      (t.append row).toOption.map (fun r => (r.2.1, r.2.2, r.1.file.last)) =
        some (t.file.last + 1, rid, t.file.last + 1)) := by
  constructor
  · intro rid hok
    rcases hadd : (t.file.get t.file.get_last_block_id).add bs with ⟨b1, r1⟩
    rw [hadd] at hok
    simp only at hok
    subst hok
    unfold HeapTable.append
    simp only [hm, hadd]
    rfl
  · intro e rid herr hok2
    rcases hadd : (t.file.get t.file.get_last_block_id).add bs with ⟨b1, r1⟩
    rw [hadd] at herr
    simp only at herr
    subst herr
    rcases hadd2 : (SlottedPage.new ((t.file.last + 1) % 4294967296)).add bs with ⟨nb1, r2⟩
    rw [hadd2] at hok2
    simp only at hok2
    subst hok2
    unfold HeapTable.append
    simp only [hm, hadd, HeapFile.get_new]
    simp only [hadd2]
    have hb : (t.file.last + 1) % 4294967296 = t.file.last + 1 := Nat.mod_eq_of_lt hlast
    simp only [hb]
    rfl

/-- C6 witness: on the demo table (whose single page has plenty of room) the
first `add` succeeds with record id 2 and the handle re-reads last = 1. -/
theorem append_retry_witness :
    demoTable.marshal demoRow = some demoBytes ∧
    demoTable.file.last + 1 < 4294967296 ∧
    ((demoTable.file.get demoTable.file.get_last_block_id).add demoBytes).2 = .ok 2 ∧
    (demoTable.append demoRow).toOption.map (fun r => (r.2.1, r.2.2, r.1.file.last)) =
      some (1, 2, 1) :=
  ⟨by decide, by decide, by decide,
    (append_retry demoTable demoRow demoBytes (by decide) (by decide)).1 2 (by decide)⟩

-- C9: project on a tombstoned record.

/-- C9: `project` is only defined for live records: for a tombstoned record
`SlottedPage::get` returns the null `Dbt*`, and `project` passes it straight
into `unmarshal`, which dereferences it — there is no defined result
(`none` in the model). -/
theorem project_tombstone_unsafe (t : HeapTable) (handle : Nat × Nat)
    (cns : Option (List String))
    (hdead : (t.file.get handle.1).get_n (4 * handle.2 + 2) = 0) :
    SlottedPage.get (t.file.get handle.1) handle.2 = none ∧
    t.project handle cns = none := by
  have hget : SlottedPage.get (t.file.get handle.1) handle.2 = none :=
    get_tombstone _ _ hdead
  refine ⟨hget, ?_⟩
  unfold HeapTable.project
  simp only [hget]

/-- One-block file whose record 1 has been deleted (tombstoned). -/
def tombFile : HeapFile :=
  { last := 1,
    store := fun bid =>
      if bid = 1 then ((freshPage.add demoBytes).1.del 1).block else fun _ => 0 }

/-- Demo table over `tombFile`. -/
def tombTable : HeapTable :=
  ⟨["a", "b"], [⟨DataType.INT⟩, ⟨DataType.TEXT⟩], tombFile⟩

/-- C9 witness: after deleting record 1, its slot header's `loc` is 0, `get`
returns the null result and `project` has no defined result. -/
theorem project_tombstone_unsafe_witness :
    (tombTable.file.get 1).get_n (4 * 1 + 2) = 0 ∧
    (SlottedPage.get (tombTable.file.get 1) 1 = none ∧
      tombTable.project (1, 1) none = none) :=
  ⟨by decide, project_tombstone_unsafe tombTable (1, 1) none (by decide)⟩

-- C8: project ignores the requested column subset.

/-- C8 (code bug): `project(handle, ["a"])` on the a:INT, b:TEXT demo row
still returns a row keyed by BOTH schema columns — the source's copy loop
iterates `this->column_names` instead of the requested `column_names`
parameter — so requesting `["a"]` does not produce only the `a` entry. -/
theorem project_ignores_requested_columns :
    (demoTable.project (1, 1) (some ["a"])).map (fun r => r.map Prod.fst) =
      some ["a", "b"] ∧
    (demoTable.project (1, 1) (some ["a"])).map (fun r => List.lookup "b" r) =
      some (some (Value.ofText [72, 105])) :=
  ⟨by decide, by decide⟩

-- C7/C10: the select scan.

/-- Ascending (block id, record id) order on handles. -/
def handleLt (x y : Nat × Nat) : Prop :=
  x.1 < y.1 ∨ (x.1 = y.1 ∧ x.2 < y.2)

/-- The handles emitted when scanning `bids` against file `f`. -/
def scanHandles (f : HeapFile) : List Nat → List (Nat × Nat)
  | [] => []
  | b :: bs => ((f.get b).ids.map fun rid => (b, rid)) ++ scanHandles f bs

theorem foldl_selectStep_fst (bids : List Nat) :
    ∀ (f : HeapFile) (acc : List (Nat × Nat)),
      (bids.foldl selectStep (f, acc)).1 = f := by
  induction bids with
  | nil => intro f acc; rfl
  | cons b bs ih => intro f acc; exact ih f _

theorem foldl_selectStep_snd (bids : List Nat) :
    ∀ (f : HeapFile) (acc : List (Nat × Nat)),
      (bids.foldl selectStep (f, acc)).2 = acc ++ scanHandles f bids := by
  induction bids with
  | nil => intro f acc; simp [scanHandles]
  | cons b bs ih =>
    intro f acc
    show (bs.foldl selectStep (selectStep (f, acc) b)).2 = _
    rw [show selectStep (f, acc) b =
      (f, acc ++ ((f.get b).ids.map fun rid => (b, rid))) from rfl]
    rw [ih f _, scanHandles, List.append_assoc]

theorem mem_scanHandles (f : HeapFile) (bid rid : Nat) :
    ∀ (bids : List Nat),
      (bid, rid) ∈ scanHandles f bids ↔ bid ∈ bids ∧ rid ∈ (f.get bid).ids := by
  intro bids
  induction bids with
  | nil => simp [scanHandles]
  | cons b bs ih =>
    rw [scanHandles, List.mem_append, ih]
    constructor
    · rintro (hmap | ⟨hb, hr⟩)
      · obtain ⟨r, hr, heq⟩ := List.mem_map.mp hmap
        obtain ⟨h1, h2⟩ := Prod.mk.inj heq
        subst h1
        subst h2
        exact ⟨List.mem_cons_self _ _, hr⟩
      · exact ⟨List.mem_cons_of_mem _ hb, hr⟩
    · rintro ⟨hb, hr⟩
      rcases List.mem_cons.mp hb with rfl | hb'
      · exact Or.inl (List.mem_map.mpr ⟨rid, hr, rfl⟩)
      · exact Or.inr ⟨hb', hr⟩

theorem ids_pairwise (p : SlottedPage) : p.ids.Pairwise (· < ·) :=
  List.Pairwise.filter _ (List.pairwise_lt_range' 1 p.num_records)

theorem mem_ids_iff (p : SlottedPage) (rid : Nat) :
    rid ∈ p.ids ↔ 1 ≤ rid ∧ rid ≤ p.num_records ∧ p.get_n (4 * rid + 2) ≠ 0 := by
  rw [SlottedPage.ids, List.mem_filter, List.mem_range'_1, decide_eq_true_eq]
  constructor
  · rintro ⟨⟨h1, h2⟩, h3⟩
    exact ⟨h1, by omega, h3⟩
  · rintro ⟨h1, h2, h3⟩
    exact ⟨⟨h1, by omega⟩, h3⟩

theorem get_eq_none_iff (p : SlottedPage) (rid : Nat) :
    p.get rid = none ↔ p.get_n (4 * rid + 2) = 0 := by
  by_cases h : p.get_n (4 * rid + 2) = 0
  · simp [get_eq, h]
  · simp [get_eq, h]

theorem scanHandles_pairwise (f : HeapFile) :
    ∀ (bids : List Nat), bids.Pairwise (· < ·) →
      (scanHandles f bids).Pairwise handleLt := by
  intro bids
  induction bids with
  | nil => intro _; exact List.Pairwise.nil
  | cons b bs ih =>
    intro hpw
    rw [scanHandles, List.pairwise_append]
    refine ⟨?_, ih (List.Pairwise.sublist (List.sublist_cons_self _ _) hpw), ?_⟩
    · exact List.Pairwise.map _ (fun r1 r2 h => Or.inr ⟨rfl, h⟩) (ids_pairwise (f.get b))
    · intro x hx y hy
      obtain ⟨r, _, rfl⟩ := List.mem_map.mp hx
      obtain ⟨hby, _⟩ := (mem_scanHandles f y.1 y.2 bs).mp (by simpa using hy)
      exact Or.inl (List.rel_of_pairwise_cons hpw hby)

/-- C7: `select` with no predicate emits, in ascending block id then record
id order, exactly one handle per live record of every block `1..last` — none
for tombstoned records and none twice — while a non-empty predicate fails
with the distinct "cannot handle where clauses yet" error. -/
theorem select_scan (t : HeapTable) (w : Option Row) :
    (∀ pred, w = some pred → (t.select w).2 = .error "cannot handle where clauses yet") ∧
    ∃ hs, (t.select none).2 = .ok hs ∧
      (∀ bid rid, ((bid, rid) ∈ hs ↔
        (1 ≤ bid ∧ bid ≤ t.file.last ∧ 1 ≤ rid ∧
          rid ≤ (t.file.get bid).num_records ∧
          SlottedPage.get (t.file.get bid) rid ≠ none))) ∧
      List.Pairwise handleLt hs ∧ hs.Nodup := by
  constructor
  · intro pred hp
    subst hp
    rfl
  · refine ⟨scanHandles t.file t.file.block_ids, ?_, ?_, ?_, ?_⟩
    · show (HeapTable.select t none).2 = _
      unfold HeapTable.select
      simp only [foldl_selectStep_snd, List.nil_append]
    · intro bid rid
      rw [mem_scanHandles, HeapFile.block_ids, List.mem_range'_1, mem_ids_iff]
      simp only [ne_eq, get_eq_none_iff]
      constructor
      · rintro ⟨⟨hb1, hb2⟩, hr1, hr2, hr3⟩
        exact ⟨hb1, by omega, hr1, hr2, hr3⟩
      · rintro ⟨hb1, hb2, hr1, hr2, hr3⟩
        exact ⟨⟨hb1, by omega⟩, hr1, hr2, hr3⟩
    · exact scanHandles_pairwise t.file _ (List.pairwise_lt_range' 1 t.file.last)
    · refine List.Pairwise.imp ?_
        (scanHandles_pairwise t.file _ (List.pairwise_lt_range' 1 t.file.last))
      intro x y hxy
      rcases hxy with h | ⟨h1, h2⟩
      · intro heq; rw [heq] at h; exact Nat.lt_irrefl _ h
      · intro heq; rw [heq] at h2; exact Nat.lt_irrefl _ h2

/-- C7 witness: on the demo table a predicate fails with the unsupported
error, and the scan of the one-record table is exactly `[(1, 1)]`. -/
theorem select_scan_witness :
    (demoTable.select (some demoRow)).2 = .error "cannot handle where clauses yet" ∧
    (∃ hs, (demoTable.select none).2 = .ok hs ∧
      (∀ bid rid, ((bid, rid) ∈ hs ↔
        (1 ≤ bid ∧ bid ≤ demoTable.file.last ∧ 1 ≤ rid ∧
          rid ≤ (demoTable.file.get bid).num_records ∧
          SlottedPage.get (demoTable.file.get bid) rid ≠ none))) ∧
      List.Pairwise handleLt hs ∧ hs.Nodup) :=
  ⟨(select_scan demoTable (some demoRow)).1 demoRow rfl,
    (select_scan demoTable (some demoRow)).2⟩

/-- C10: `select` — with or without a predicate, whether it returns handles
or fails — performs no device write: the file's `last` and every byte of
every persisted block are unchanged. -/
theorem select_readonly (t : HeapTable) (w : Option Row) :
    (t.select w).1.file.last = t.file.last ∧
    ∀ bid off, (t.select w).1.file.store bid off = t.file.store bid off := by
  cases w with
  | some pred => exact ⟨rfl, fun _ _ => rfl⟩
  | none =>
    unfold HeapTable.select
    simp only [foldl_selectStep_fst]
    exact ⟨trivial, fun _ _ => trivial⟩
